import Mathlib

/-!
A verification development for the FastDL core download engine
(`src/.core-main.rs`).  The pure logic of the engine — chunk planning,
per-chunk retry accounting, probe retry with backoff, strategy choice,
filename derivation, and the derived statistics — is embedded shallowly:
Rust `u64`/`usize` values become `Nat` with an explicit `% 2 ^ 64`
wherever the source arithmetic can wrap, panics (division by zero,
overflow in a checked build) become `Option.none`, and the effectful
loops become explicit functions of the sequence of attempt outcomes.
-/

/-- Modulus of Rust `u64` (and of `usize` on the 64-bit targets the tool
ships for).  Arithmetic in the source that can exceed this bound is
embedded with an explicit `% u64Mod`. -/
def u64Mod : Nat := 2 ^ 64

/-- Chunk descriptor, mirroring `struct ChunkInfo` (src lines 128-135).
The source field `end` is a Lean keyword, so it is called `stop` here;
it is the inclusive final byte offset of the chunk. -/
structure ChunkInfo where
  start : Nat
  stop : Nat
  size : Nat
  completed : Bool
  retries : Nat
deriving Repr, DecidableEq

/-- `FastDownloader::create_chunks` (src lines 290-331).

* `supports_ranges = false` or `file_size = 0`: one chunk
  `{start: 0, end: file_size.saturating_sub(1), size: file_size}`
  (Nat subtraction is exactly `saturating_sub`).
* otherwise `chunk_size = chunk_size_mb * 1024 * 1024` (a `usize`
  product, wrapped at `2^64`), `num_chunks = min connections
  ((file_size + chunk_size - 1) / chunk_size)` (the sum is `u64`
  addition, wrapped at `2^64`).  A zero divisor is a Rust
  division-by-zero panic, embedded as `none`; a checked build panics
  one step earlier, on the overflowing `+` or `*`, so `none` covers
  both build modes on every input where they differ from the wrapped
  value.  The remaining arithmetic (`i * chunk_size_actual`,
  `start + chunk_size_actual - 1`, `end + remainder`,
  `end - start + 1`) stays below `file_size < 2^64` whenever the
  divisions are defined, hence carries no wrap.
-/
def create_chunks (connections chunk_size_mb : Nat) (file_size : Nat)
    (supports_ranges : Bool) : Option (List ChunkInfo) :=
  if supports_ranges = false ∨ file_size = 0 then
    some [⟨0, file_size - 1, file_size, false, 0⟩]
  else
    let chunk_size := (chunk_size_mb * 1024 * 1024) % u64Mod
    if chunk_size = 0 then none
    else
      let num_chunks := min connections (((file_size + chunk_size - 1) % u64Mod) / chunk_size)
      if num_chunks = 0 then none
      else
        let chunk_size_actual := file_size / num_chunks
        let remainder := file_size % num_chunks
        some ((List.range num_chunks).map (fun i =>
          let start := i * chunk_size_actual
          let stop0 := start + chunk_size_actual - 1
          let stop := if i = num_chunks - 1 then stop0 + remainder else stop0
          ⟨start, stop, stop - start + 1, false, 0⟩))

/-- `chunksCover pos fs l` holds when the chunks of `l`, in order, tile
the byte interval `[pos, fs - 1]` exactly: each chunk starts where the
previous one stopped (`+ 1`), is non-empty (`start ≤ stop`), and the
final chunk stops at byte `fs - 1`.  `chunksCover 0 fs l` is the spec's
"partition `[0, file_size − 1]` exactly — contiguous, non-overlapping,
first chunk starts at 0, last chunk ends at `file_size − 1`". -/
def chunksCover : Nat → Nat → List ChunkInfo → Bool
  | pos, fs, [] => pos == fs
  | pos, fs, c :: rest =>
      (c.start == pos) && (c.start ≤ c.stop : Bool) && chunksCover (c.stop + 1) fs rest

/-- Sum of the `size` fields of a chunk list. -/
def sizesSum (l : List ChunkInfo) : Nat := (l.map ChunkInfo.size).sum

/-- Chunk count chosen by the ranged branch of `create_chunks`, written
without the wrap-arounds; it agrees with the source whenever
`chunk_size_mb * 1024 * 1024 < 2^64` and
`file_size + chunk_size_mb * 1024 * 1024 ≤ 2^64` (proved below). -/
def rangedNum (connections chunk_size_mb file_size : Nat) : Nat :=
  min connections ((file_size + chunk_size_mb * 1024 * 1024 - 1) / (chunk_size_mb * 1024 * 1024))

/-- The Range header attached by `download_chunk_attempt`
(src lines 385-389): added exactly when
`chunk.start > 0 || chunk.end < chunk.start + chunk.size`, with value
`bytes=<start>-<end>`.  For every chunk the source constructs,
`start + size = stop + 1 ≤ 2^64`, so the `u64` sum never wraps and the
plain `Nat` comparison is exact. -/
def range_header (c : ChunkInfo) : Option String :=
  if 0 < c.start ∨ c.stop < c.start + c.size then
    some ("bytes=" ++ toString c.start ++ "-" ++ toString c.stop)
  else none

/-- The strategy condition of `download_file` (src line 596):
ranged-parallel (`download_multithread`) is used exactly when
`supports_ranges && file_size > 1024 * 1024 && connections > 1`;
otherwise `download_single_stream`. -/
def uses_multithread (supports_ranges : Bool) (file_size connections : Nat) : Bool :=
  supports_ranges && decide (1024 * 1024 < file_size) && decide (1 < connections)

/-- The 32-bit folding hash of `extract_filename` (src line 233):
`url.chars().fold(0u32, |acc, c| acc.wrapping_add(c as u32))`.
`String.data` lists the Unicode scalar values, matching `chars()`, and
`wrapping_add` is addition `% 2^32`. -/
def url_hash (url : String) : Nat :=
  url.data.foldl (fun acc c => (acc + c.toNat) % 4294967296) 0

/-- The two third-party library calls `extract_filename` makes, kept
abstract: `segments url` models `url::Url::parse(url)` followed by
`.path_segments()` (with `none` covering both a parse error and a URL
with no path segments), and `decode s` models `urlencoding::decode(s)`
(`none` is the `Err` case, which the source maps to `""` via
`unwrap_or_default`). -/
structure UrlLib where
  segments : String → Option (List String)
  decode : String → Option String

/-- The query-discarding step of `extract_filename` (src line 222):
`filename.split('?').next()` is the prefix of the string before its
first `'?'` (the whole string when there is none, the empty string when
it starts with `'?'`), and it is always `Some`, so the source's
`if let` never falls through on it. -/
def dropQuery (s : String) : String :=
  String.mk (s.data.takeWhile (fun ch => ch ≠ '?'))

/-- `FastDownloader::extract_filename` (src lines 214-238) over an
abstract `UrlLib`.  `now` stands for the current Unix time in seconds.
Every fall-through path of the source lands on the synthesized
`download_<hash>_<time>` name. -/
def extract_filename (lib : UrlLib) (now : Nat) (url : String) : String :=
  let fallback := "download_" ++ toString (url_hash url) ++ "_" ++ toString now
  match lib.segments url with
  | some segs =>
    match segs.getLast? with
    | some lastSeg =>
      if lastSeg ≠ "" then
        let cleanName := dropQuery ((lib.decode lastSeg).getD "")
        if cleanName ≠ "" then cleanName else fallback
      else fallback
    | none => fallback
  | none => fallback

/-- `reqwest::StatusCode::is_success`: status in `200..=299`. -/
def statusSuccess (status : Nat) : Bool := decide (200 ≤ status) && decide (status < 300)

/-- Outcome of one HEAD request in `get_file_info`: either a response
(status, parsed `Content-Length` if present and parseable, raw
`Accept-Ranges` header if present) or a transport error. -/
inductive HeadOutcome where
  | ok (status : Nat) (contentLength : Option Nat) (acceptRanges : Option String)
  | err
deriving Repr

/-- Structured form of the two errors `get_file_info` can return:
`format!("HTTP error: {}", status)` and
`format!("Failed to get file info after {} retries: {}", 3, e)`. -/
inductive ProbeError where
  | http (status : Nat)
  | transport (maxRetries : Nat)
deriving Repr, DecidableEq

/-- The `supports_ranges` computation of `get_file_info`
(src lines 264-268): the `Accept-Ranges` header, lowercased,
equals `"bytes"`. -/
def rangeSupported (acceptRanges : Option String) : Bool :=
  (acceptRanges.map String.toLower) == some "bytes"

/-- One iteration of the retry loop of `get_file_info`
(src lines 245-286), as a function of the attempt outcomes.
`retries` is the source's counter (it equals the index of the attempt
being made, since it is incremented exactly once per failed
iteration); `fuel` is `2 - retries`, the number of retries the budget
still allows, so the `fuel = 0` arm below is unreachable from the
entry point (the guard `retries + 1 ≥ 3` fires first; it is proved
exact in the C4 theorem).  Returns the result, the list of backoff
sleeps in milliseconds (`1000 * (1 <<< retries)` after each failure
that is retried), and the number of HEAD requests issued. -/
def get_file_info_go (outcomes : Nat → HeadOutcome) :
    Nat → Nat → Except ProbeError (Nat × Bool) × List Nat × Nat
  | fuel, retries =>
    match outcomes retries with
    | .ok status contentLength acceptRanges =>
      if statusSuccess status = false then (.error (.http status), [], 1)
      else (.ok (contentLength.getD 0, rangeSupported acceptRanges), [], 1)
    | .err =>
      if 3 ≤ retries + 1 then (.error (.transport 3), [], 1)
      else
        match fuel with
        | 0 => (.error (.transport 3), [], 1)
        | fuel' + 1 =>
          let rest := get_file_info_go outcomes fuel' (retries + 1)
          (rest.1, 1000 * 2 ^ (retries + 1) :: rest.2.1, rest.2.2 + 1)

/-- `FastDownloader::get_file_info` (src lines 241-287): the loop
starts with `retries = 0` and `max_retries = 3`, so at most two
retries remain after the first attempt. -/
def get_file_info (outcomes : Nat → HeadOutcome) :
    Except ProbeError (Nat × Bool) × List Nat × Nat :=
  get_file_info_go outcomes 2 0

/-- Outcome of one `download_chunk_attempt` call: the bytes it streamed
into the file and added to `stats.downloaded` before returning (every
frame is counted as it arrives, src line 419, whether or not the
attempt later fails), and whether it returned `Ok`.  A successful
attempt's `bytes` is the byte count of the response body. -/
structure AttemptResult where
  bytes : Nat
  ok : Bool

/-- What one `download_chunk` call produces: its return value, the
number of attempts (GET requests) made, the total bytes added to
`stats.downloaded`, and the number of `chunks_completed` increments. -/
structure ChunkRun where
  result : Except String ChunkInfo
  attempts : Nat
  bytes : Nat
  completedInc : Nat
deriving Repr

/-- The terminal error of `download_chunk` (src lines 372-373):
`format!("Chunk {}-{} failed after {} retries", start, end, config.retries)`. -/
def chunkFailMsg (start stop cfgRetries : Nat) : String :=
  "Chunk " ++ toString start ++ "-" ++ toString stop ++ " failed after "
    ++ toString cfgRetries ++ " retries"

/-- The retry loop of `download_chunk` (src lines 344-370), as a
function of the attempt outcomes.  `att r` is the outcome of the
attempt made with `chunk.retries = r` (the counter is incremented
exactly once per failed iteration, so it indexes attempts).  `fuel` is
`cfgRetries - c.retries`: the loop guard `chunk.retries < retries`
holds iff `fuel ≠ 0`, and each failed iteration increments the counter
and decrements the fuel in lockstep. -/
def download_chunk_go (cfgRetries : Nat) (att : Nat → AttemptResult) :
    Nat → ChunkInfo → ChunkRun
  | 0, c => ⟨.error (chunkFailMsg c.start c.stop cfgRetries), 0, 0, 0⟩
  | fuel + 1, c =>
    let a := att c.retries
    if a.ok then ⟨.ok { c with completed := true }, 1, a.bytes, 1⟩
    else
      let rest := download_chunk_go cfgRetries att fuel { c with retries := c.retries + 1 }
      ⟨rest.result, rest.attempts + 1, rest.bytes + a.bytes, rest.completedInc⟩

/-- `FastDownloader::download_chunk` (src lines 334-374). -/
def download_chunk (cfgRetries : Nat) (att : Nat → AttemptResult) (c : ChunkInfo) : ChunkRun :=
  download_chunk_go cfgRetries att (cfgRetries - c.retries) c

/-- Whether a chunk task's result is `Ok` (the aggregation test of
`download_multithread`, src lines 479-493). -/
def resultOk (r : Except String ChunkInfo) : Bool :=
  match r with
  | .ok _ => true
  | .error _ => false

/-- `FastDownloader::download_multithread` (src lines 437-500), reduced
to what the claims observe: the chunks are planned by `create_chunks`
(a planner panic propagates as `none`), one task runs per chunk
(`atts i` gives chunk `i`'s attempt outcomes), the download succeeds
iff every task returned `Ok`, and `stats.downloaded` receives the sum
of all bytes streamed by all attempts (the counter is only ever added
to, so the order tasks interleave in cannot change the total). -/
def download_multithread (connections chunk_size_mb cfgRetries : Nat)
    (atts : Nat → Nat → AttemptResult) (file_size : Nat) (supports_ranges : Bool) :
    Option (Bool × Nat) :=
  match create_chunks connections chunk_size_mb file_size supports_ranges with
  | none => none
  | some chunks =>
    let runs := (List.range chunks.length).map
      (fun i => download_chunk cfgRetries (atts i) (chunks.getD i ⟨0, 0, 0, false, 0⟩))
    some (runs.all (fun r => resultOk r.result), (runs.map (fun r => r.bytes)).sum)

/-- `FastDownloader::download_single_stream` (src lines 503-541),
reduced to what the claims observe: on a non-2xx status it fails
having streamed nothing; otherwise it streams the body frames
(`frames` lists their byte counts, each added to `stats.downloaded`),
and a transport error mid-stream (`streamErr`) fails the download
after the received frames were already counted. -/
def download_single_stream (status : Nat) (frames : List Nat) (streamErr : Bool) :
    Except String Unit × Nat :=
  if statusSuccess status = false then
    (.error ("HTTP error: " ++ toString status), 0)
  else if streamErr then (.error "Network error", frames.sum)
  else (.ok (), frames.sum)

/-- `DownloadStats::speed_mbps` (src lines 158-166) with the wall-clock
reading `elapsed` made explicit and `f64` arithmetic carried out in
`ℚ`: only the guard structure (zero when `elapsed` is zero) and
exactness-irrelevant facts are stated about it. -/
def speed_mbps (elapsed : ℚ) (downloaded : Nat) : ℚ :=
  if 0 < elapsed then ((downloaded : ℚ) / (1024 * 1024)) / elapsed else 0

/-- `DownloadStats::eta_seconds` (src lines 169-177).  The source first
computes `total_size - downloaded` as an unchecked `u64` subtraction —
before the `speed > 0` guard is consulted — so `downloaded > total_size`
underflows (a panic in a checked build, a wrapped huge remainder
otherwise); that case is `none` here.  The in-range case divides in
`ℚ` in place of `f64`. -/
def eta_seconds (total downloaded : Nat) (speed : ℚ) : Option ℚ :=
  if downloaded ≤ total then
    some (if 0 < speed then (((total - downloaded : Nat) : ℚ) / (1024 * 1024)) / speed else 0)
  else none

/-- `DownloadStats::completion_percentage` (src lines 180-187), with
`f64` arithmetic carried out in `ℚ`. -/
def completion_percentage (total downloaded : Nat) : ℚ :=
  if 0 < total then ((downloaded : ℚ) / (total : ℚ)) * 100 else 0

/-- Generic form of one chunk of the ranged branch of `create_chunks`:
`num` chunks of `base` bytes, the last widened by `rem`.  The body is
definitionally the mapped closure of `create_chunks`. -/
def planChunk (num base rem i : Nat) : ChunkInfo :=
  let start := i * base
  let stop0 := start + base - 1
  let stop := if i = num - 1 then stop0 + rem else stop0
  ⟨start, stop, stop - start + 1, false, 0⟩

/-- A `UrlLib` that reports the fixed segment list `a / b / c.txt` for
every URL and decodes identically; used to exercise the usable-segment
branch of `extract_filename` on concrete inputs. -/
def pathLib : UrlLib := ⟨fun _ => some ["a", "b", "c.txt"], fun s => some s⟩

/-- A `UrlLib` whose parser always fails; drives `extract_filename`
into its synthesized-name branch. -/
def noParseLib : UrlLib := ⟨fun _ => none, fun s => some s⟩

/-- Attempt outcomes for a concrete two-chunk download in which chunk 0
streams 1 byte on a failing first attempt and then succeeds in full;
chunk 1 succeeds at once.  Every successful attempt streams exactly
one full 1-MiB chunk. -/
def retriedAtts : Nat → Nat → AttemptResult :=
  fun chunkIdx attemptIdx =>
    if chunkIdx = 0 ∧ attemptIdx = 0 then ⟨1, false⟩ else ⟨1048576, true⟩

/-- Attempt outcomes in which every chunk succeeds on its first
attempt, streaming exactly one full 1-MiB chunk. -/
def cleanAtts : Nat → Nat → AttemptResult := fun _ _ => ⟨1048576, true⟩

theorem rangedNum_pos (conn m fs : Nat) (hfs : 1 ≤ fs) (hconn : 1 ≤ conn) (hm : 1 ≤ m) :
    1 ≤ rangedNum conn m fs := by
  have hCS : 0 < m * 1024 * 1024 := by positivity
  refine le_min hconn ?_
  rw [Nat.one_le_div_iff hCS]
  omega

theorem rangedNum_le_conn (conn m fs : Nat) : rangedNum conn m fs ≤ conn :=
  min_le_left _ _

theorem rangedNum_le_fs (conn m fs : Nat) (hfs : 1 ≤ fs) (hm : 1 ≤ m) :
    rangedNum conn m fs ≤ fs := by
  have hCS : 0 < m * 1024 * 1024 := by positivity
  refine le_trans (min_le_right _ _) ?_
  have h1 : fs + m * 1024 * 1024 - 1 ≤ m * 1024 * 1024 * fs + (m * 1024 * 1024 - 1) := by
    have h2 : fs ≤ m * 1024 * 1024 * fs := Nat.le_mul_of_pos_left fs hCS
    omega
  calc (fs + m * 1024 * 1024 - 1) / (m * 1024 * 1024)
      ≤ (m * 1024 * 1024 * fs + (m * 1024 * 1024 - 1)) / (m * 1024 * 1024) :=
        Nat.div_le_div_right h1
    _ = fs := by
        rw [Nat.mul_add_div hCS]
        simp [Nat.div_eq_of_lt (show m * 1024 * 1024 - 1 < m * 1024 * 1024 by omega)]

theorem create_chunks_ranged_eq (conn m fs : Nat) (hfs : 1 ≤ fs)
    (hconn : 1 ≤ conn) (hm : 1 ≤ m)
    (hcs : m * 1024 * 1024 < u64Mod) (hov : fs + m * 1024 * 1024 ≤ u64Mod) :
    create_chunks conn m fs true =
      some ((List.range (rangedNum conn m fs)).map
        (planChunk (rangedNum conn m fs) (fs / rangedNum conn m fs)
          (fs % rangedNum conn m fs))) := by
  have hCS : 0 < m * 1024 * 1024 := by positivity
  have hmod1 : (m * 1024 * 1024) % u64Mod = m * 1024 * 1024 := Nat.mod_eq_of_lt hcs
  have hmod2 : (fs + m * 1024 * 1024 - 1) % u64Mod = fs + m * 1024 * 1024 - 1 :=
    Nat.mod_eq_of_lt (by omega)
  have hnum : 1 ≤ rangedNum conn m fs := rangedNum_pos conn m fs hfs hconn hm
  unfold create_chunks
  rw [if_neg (by simp; omega)]
  simp only [hmod1, hmod2]
  rw [if_neg (by omega)]
  rw [if_neg (show ¬ min conn ((fs + m * 1024 * 1024 - 1) / (m * 1024 * 1024)) = 0 by
    have := hnum; unfold rangedNum at this; omega)]
  rfl

theorem chunksCover_nil (pos fs : Nat) : chunksCover pos fs [] = (pos == fs) := rfl

theorem chunksCover_cons (pos fs : Nat) (c : ChunkInfo) (rest : List ChunkInfo) :
    chunksCover pos fs (c :: rest)
      = ((c.start == pos) && (decide (c.start ≤ c.stop)) && chunksCover (c.stop + 1) fs rest) := rfl

theorem planChunk_start (num base rem i : Nat) : (planChunk num base rem i).start = i * base := rfl

theorem planChunk_stop (num base rem i : Nat) :
    (planChunk num base rem i).stop
      = if i = num - 1 then i * base + base - 1 + rem else i * base + base - 1 := rfl

theorem planChunk_size (num base rem i : Nat) :
    (planChunk num base rem i).size
      = (if i = num - 1 then i * base + base - 1 + rem else i * base + base - 1) - i * base + 1 := rfl

theorem planChunk_retries (num base rem i : Nat) : (planChunk num base rem i).retries = 0 := rfl

theorem chunksCover_planChunk (num base rem fs : Nat) (hbase : 1 ≤ base)
    (hsum : num * base + rem = fs) :
    ∀ j k, k + j = num → 1 ≤ j →
      chunksCover (k * base) fs ((List.range' k j).map (planChunk num base rem)) = true := by
  intro j
  induction j with
  | zero => omega
  | succ j ih =>
    intro k hk _
    rw [List.range'_succ k j 1, List.map_cons, chunksCover_cons]
    cases j with
    | zero =>
      have hk1 : k = num - 1 := by omega
      have e2 : num * base = k * base + base := by
        rw [← hk]; exact Nat.succ_mul k base
      show (_ && _ && chunksCover _ _ (List.map _ [])) = true
      rw [List.map_nil, chunksCover_nil]
      simp only [planChunk_start, planChunk_stop, if_pos hk1, Bool.and_eq_true,
        beq_iff_eq, decide_eq_true_eq]
      refine ⟨⟨trivial, by omega⟩, ?_⟩
      omega
    | succ j' =>
      have hkne : ¬ k = num - 1 := by omega
      simp only [planChunk_start, planChunk_stop, if_neg hkne, Bool.and_eq_true,
        beq_iff_eq, decide_eq_true_eq]
      refine ⟨⟨trivial, by omega⟩, ?_⟩
      have estep : k * base + base - 1 + 1 = (k + 1) * base := by
        have e1 : (k + 1) * base = k * base + base := Nat.succ_mul k base
        omega
      rw [estep]
      exact ih (k + 1) (by omega) (by omega)

theorem sum_map_range_const (m b : Nat) (g : Nat → Nat) (h : ∀ i, i < m → g i = b) :
    ((List.range m).map g).sum = m * b := by
  induction m with
  | zero => simp
  | succ m ih =>
    rw [List.range_succ, List.map_append, List.sum_append,
      ih (fun i hi => h i (by omega))]
    simp only [List.map_cons, List.map_nil, List.sum_cons, List.sum_nil]
    rw [h m (by omega), Nat.succ_mul]
    omega

theorem sizesSum_planChunk (num base rem fs : Nat) (hnum : 1 ≤ num) (hbase : 1 ≤ base)
    (hsum : num * base + rem = fs) :
    sizesSum ((List.range num).map (planChunk num base rem)) = fs := by
  unfold sizesSum
  rw [List.map_map]
  have hpt : ∀ i, (ChunkInfo.size ∘ planChunk num base rem) i
      = if i = num - 1 then base + rem else base := by
    intro i
    show (planChunk num base rem i).size = _
    rw [planChunk_size]
    by_cases h : i = num - 1 <;> simp only [if_pos, if_neg, h, if_true, if_false] <;> omega
  rw [List.map_congr_left (fun i _ => hpt i)]
  obtain ⟨n, rfl⟩ : ∃ n, num = n + 1 := ⟨num - 1, by omega⟩
  rw [List.range_succ, List.map_append, List.sum_append,
    sum_map_range_const n base _ (fun i hi => if_neg (by omega))]
  have hl : (List.map (fun i => if i = n + 1 - 1 then base + rem else base) [n]).sum
      = base + rem := by simp
  rw [hl]
  have e1 : (n + 1) * base = n * base + base := Nat.succ_mul n base
  omega

theorem create_chunks_single_eq (conn m fs : Nat) (sr : Bool) (h : sr = false ∨ fs = 0) :
    create_chunks conn m fs sr = some [⟨0, fs - 1, fs, false, 0⟩] := by
  unfold create_chunks
  rw [if_pos h]

/-- C1 (amended): under the added no-overflow side conditions on the
`u64` arithmetic, the planner's output partitions `[0, fs - 1]`. -/
theorem create_chunks_partition (conn m fs : Nat)
    (hfs : 1 ≤ fs) (hconn : 1 ≤ conn) (hm : 1 ≤ m)
    (hcs : m * 1024 * 1024 < u64Mod) (hov : fs + m * 1024 * 1024 ≤ u64Mod) :
    (create_chunks conn m fs true).isSome = true ∧
    chunksCover 0 fs ((create_chunks conn m fs true).getD []) = true ∧
    1 ≤ ((create_chunks conn m fs true).getD []).length ∧
    ((create_chunks conn m fs true).getD []).length ≤ conn ∧
    sizesSum ((create_chunks conn m fs true).getD []) = fs := by
  have heq := create_chunks_ranged_eq conn m fs hfs hconn hm hcs hov
  have hnum : 1 ≤ rangedNum conn m fs := rangedNum_pos conn m fs hfs hconn hm
  have hnumfs : rangedNum conn m fs ≤ fs := rangedNum_le_fs conn m fs hfs hm
  have hbase : 1 ≤ fs / rangedNum conn m fs := (Nat.one_le_div_iff (by omega)).mpr hnumfs
  have hsum : rangedNum conn m fs * (fs / rangedNum conn m fs) + fs % rangedNum conn m fs = fs :=
    Nat.div_add_mod fs (rangedNum conn m fs)
  rw [heq]
  refine ⟨rfl, ?_, ?_, ?_, ?_⟩
  · rw [Option.getD_some, List.range_eq_range']
    have hcov := chunksCover_planChunk (rangedNum conn m fs) (fs / rangedNum conn m fs)
      (fs % rangedNum conn m fs) fs hbase hsum (rangedNum conn m fs) 0 (by omega) (by omega)
    rw [Nat.zero_mul] at hcov
    exact hcov
  · rw [Option.getD_some, List.length_map, List.length_range]
    exact hnum
  · rw [Option.getD_some, List.length_map, List.length_range]
    exact rangedNum_le_conn conn m fs
  · rw [Option.getD_some]
    exact sizesSum_planChunk _ _ _ _ hnum hbase hsum

theorem create_chunks_partition_cx :
    create_chunks 1 1 18446744073709551615 true = none := by rfl

theorem create_chunks_partition_witness :
    (create_chunks 4 1 10485760 true).isSome = true ∧
    chunksCover 0 10485760 ((create_chunks 4 1 10485760 true).getD []) = true ∧
    1 ≤ ((create_chunks 4 1 10485760 true).getD []).length ∧
    ((create_chunks 4 1 10485760 true).getD []).length ≤ 4 ∧
    sizesSum ((create_chunks 4 1 10485760 true).getD []) = 10485760 :=
  create_chunks_partition 4 1 10485760 (by decide) (by decide) (by decide)
    (by decide) (by decide)

/-- C7: no range support or zero size gives the single synthetic chunk. -/
theorem create_chunks_fallback_single (conn m fs : Nat) (sr : Bool)
    (h : sr = false ∨ fs = 0) :
    create_chunks conn m fs sr = some [⟨0, fs - 1, fs, false, 0⟩] :=
  create_chunks_single_eq conn m fs sr h

theorem create_chunks_fallback_single_witness :
    create_chunks 8 1 0 true = some [⟨0, 0, 0, false, 0⟩] ∧
    create_chunks 8 1 1024 false = some [⟨0, 1023, 1024, false, 0⟩] :=
  ⟨create_chunks_fallback_single 8 1 0 true (Or.inr rfl),
   create_chunks_fallback_single 8 1 1024 false (Or.inl rfl)⟩

/-- C9 (amended): totality of the planner. -/
theorem create_chunks_totality (conn m fs : Nat) :
    (1 ≤ fs → m = 0 ∨ conn = 0 → create_chunks conn m fs true = none) ∧
    (1 ≤ fs → 1 ≤ conn → 1 ≤ m → m * 1024 * 1024 < u64Mod →
      fs + m * 1024 * 1024 ≤ u64Mod → (create_chunks conn m fs true).isSome = true) ∧
    (∀ sr : Bool, sr = false ∨ fs = 0 → (create_chunks conn m fs sr).isSome = true) := by
  refine ⟨?_, ?_, ?_⟩
  · intro hfs h
    unfold create_chunks
    rw [if_neg (by simp; omega)]
    rcases h with h | h
    · rw [h]
      simp
    · by_cases hcs0 : (m * 1024 * 1024) % u64Mod = 0
      · simp [hcs0]
      · rw [if_neg hcs0, h]
        simp
  · intro hfs hconn hm hcs hov
    rw [create_chunks_ranged_eq conn m fs hfs hconn hm hcs hov]
    rfl
  · intro sr h
    rw [create_chunks_single_eq conn m fs sr h]
    rfl

theorem create_chunks_totality_cx :
    create_chunks 2 1 18446744073709551615 true = none := by rfl

theorem create_chunks_totality_witness :
    create_chunks 0 1 5 true = none ∧
    (create_chunks 3 2 5 true).isSome = true ∧
    (create_chunks 3 2 0 true).isSome = true :=
  ⟨(create_chunks_totality 0 1 5).1 (by decide) (Or.inr rfl),
   (create_chunks_totality 3 2 5).2.1 (by decide) (by decide) (by decide) (by decide) (by decide),
   (create_chunks_totality 3 2 0).2.2 true (Or.inr rfl)⟩

/-- C6 -/
theorem download_strategy_choice (sr : Bool) (fs conn : Nat) :
    (uses_multithread sr fs conn = true ↔ sr = true ∧ 1024 * 1024 < fs ∧ 1 < conn) ∧
    uses_multithread sr (1024 * 1024) conn = false := by
  constructor
  · simp [uses_multithread, Bool.and_eq_true, and_assoc]
  · simp [uses_multithread]

/-- C3 cx -/
theorem range_header_whole_file_cx :
    range_header ⟨0, 9, 10, false, 0⟩ = some "bytes=0-9" := by rfl

/-- C3 amended -/
theorem range_header_spec :
    (∀ c : ChunkInfo, c.size = c.stop - c.start + 1 →
      range_header c = some ("bytes=" ++ toString c.start ++ "-" ++ toString c.stop)) ∧
    range_header ⟨0, 0, 0, false, 0⟩ = none := by
  constructor
  · intro c h
    unfold range_header
    rw [if_pos (Or.inr (by omega : c.stop < c.start + c.size))]
  · rfl

theorem range_header_spec_witness :
    range_header ⟨5, 9, 5, false, 0⟩ = some ("bytes=" ++ toString 5 ++ "-" ++ toString 9) :=
  range_header_spec.1 ⟨5, 9, 5, false, 0⟩ (by decide)

/-- C10 -/
theorem eta_seconds_underflow_spec :
    (∀ (total downloaded : Nat) (speed : ℚ),
      (eta_seconds total downloaded speed).isSome = true ↔ downloaded ≤ total) ∧
    (∀ (downloaded : Nat) (speed : ℚ), 1 ≤ downloaded →
      eta_seconds 0 downloaded speed = none) ∧
    (∀ downloaded : Nat, completion_percentage 0 downloaded = 0) ∧
    (∀ downloaded : Nat, speed_mbps 0 downloaded = 0) := by
  refine ⟨?_, ?_, ?_, ?_⟩
  · intro t d s
    unfold eta_seconds
    by_cases h : d ≤ t <;> simp [h]
  · intro d s h
    unfold eta_seconds
    rw [if_neg (by omega)]
  · intro d
    unfold completion_percentage
    simp
  · intro d
    unfold speed_mbps
    simp

theorem eta_seconds_underflow_spec_witness :
    eta_seconds 0 1 1 = none ∧ (eta_seconds 5 2 1).isSome = true :=
  ⟨eta_seconds_underflow_spec.2.1 1 1 (by decide),
   (eta_seconds_underflow_spec.1 5 2 1).mpr (by decide)⟩

/-- C4 -/
theorem get_file_info_retry_spec (outcomes : Nat → HeadOutcome) :
    ((∀ i, outcomes i = .err) →
      get_file_info outcomes = (.error (.transport 3), [2000, 4000], 3)) ∧
    (∀ k s cl ar, k < 3 → (∀ i, i < k → outcomes i = .err) →
      outcomes k = .ok s cl ar → statusSuccess s = false →
      get_file_info outcomes
        = (.error (.http s), (List.range k).map (fun j => 1000 * 2 ^ (j + 1)), k + 1)) ∧
    (∀ k s cl ar, k < 3 → (∀ i, i < k → outcomes i = .err) →
      outcomes k = .ok s cl ar → statusSuccess s = true →
      get_file_info outcomes
        = (.ok (cl.getD 0, rangeSupported ar),
           (List.range k).map (fun j => 1000 * 2 ^ (j + 1)), k + 1)) := by
  refine ⟨?_, ?_, ?_⟩
  · intro h
    simp [get_file_info, get_file_info_go, h]
  · intro k s cl ar hk hpre hok hs
    interval_cases k
    · simp [get_file_info, get_file_info_go, hok, hs]
    · have h0 := hpre 0 (by omega)
      simp [get_file_info, get_file_info_go, h0, hok, hs, List.range_succ]
    · have h0 := hpre 0 (by omega)
      have h1 := hpre 1 (by omega)
      simp [get_file_info, get_file_info_go, h0, h1, hok, hs, List.range_succ]
  · intro k s cl ar hk hpre hok hs
    interval_cases k
    · simp [get_file_info, get_file_info_go, hok, hs]
    · have h0 := hpre 0 (by omega)
      simp [get_file_info, get_file_info_go, h0, hok, hs, List.range_succ]
    · have h0 := hpre 0 (by omega)
      have h1 := hpre 1 (by omega)
      simp [get_file_info, get_file_info_go, h0, h1, hok, hs, List.range_succ]

theorem get_file_info_retry_spec_witness :
    get_file_info (fun _ => .err) = (.error (.transport 3), [2000, 4000], 3) ∧
    get_file_info (fun i => if i < 2 then .err else .ok 404 none none)
      = (.error (.http 404), [2000, 4000], 3) ∧
    get_file_info (fun i => if i < 1 then .err else .ok 200 (some 42) none)
      = (.ok (42, false), [2000], 2) :=
  ⟨(get_file_info_retry_spec _).1 (fun _ => rfl),
   (get_file_info_retry_spec _).2.1 2 404 none none (by decide)
      (fun i hi => if_pos hi) rfl rfl,
   (get_file_info_retry_spec _).2.2 1 200 (some 42) none (by decide)
      (fun i hi => if_pos hi) rfl rfl⟩

theorem dcgo_attempts_le (cfg : Nat) (att : Nat → AttemptResult) :
    ∀ fuel c, (download_chunk_go cfg att fuel c).attempts ≤ fuel := by
  intro fuel
  induction fuel with
  | zero => intro c; exact Nat.le_refl 0
  | succ fuel ih =>
    intro c
    by_cases h : (att c.retries).ok
    · simp [download_chunk_go, h]
    · simp only [download_chunk_go, h, Bool.false_eq_true, if_false]
      have := ih { c with retries := c.retries + 1 }
      omega

theorem dcgo_all_fail (cfg : Nat) (att : Nat → AttemptResult) :
    ∀ fuel c, (∀ i, i < c.retries + fuel → (att i).ok = false) →
      (download_chunk_go cfg att fuel c).result
          = .error (chunkFailMsg c.start c.stop cfg) ∧
      (download_chunk_go cfg att fuel c).attempts = fuel ∧
      (download_chunk_go cfg att fuel c).completedInc = 0 := by
  intro fuel
  induction fuel with
  | zero => intro c _; exact ⟨rfl, rfl, rfl⟩
  | succ fuel ih =>
    intro c h
    have hf : (att c.retries).ok = false := h c.retries (by omega)
    simp only [download_chunk_go, hf, Bool.false_eq_true, if_false]
    have hrec := ih { c with retries := c.retries + 1 } (fun i hi => h i (by simp at hi; omega))
    simp only [ChunkRun.result, ChunkRun.attempts, ChunkRun.completedInc] at hrec ⊢
    exact ⟨hrec.1, by omega, hrec.2.2⟩

theorem dcgo_success (cfg : Nat) (att : Nat → AttemptResult) :
    ∀ fuel k c, k < fuel →
      (∀ i, c.retries ≤ i → i < c.retries + k → (att i).ok = false) →
      (att (c.retries + k)).ok = true →
      (download_chunk_go cfg att fuel c).result
          = .ok { c with completed := true, retries := c.retries + k } ∧
      (download_chunk_go cfg att fuel c).attempts = k + 1 ∧
      (download_chunk_go cfg att fuel c).bytes
          = ((List.range' c.retries (k + 1)).map (fun i => (att i).bytes)).sum ∧
      (download_chunk_go cfg att fuel c).completedInc = 1 := by
  intro fuel
  induction fuel with
  | zero => intro k c hk; omega
  | succ fuel ih =>
    intro k c hk hpre hok
    cases k with
    | zero =>
      have h0 : (att c.retries).ok = true := by simpa using hok
      simp [download_chunk_go, h0, List.range'_succ]
    | succ k =>
      have hf : (att c.retries).ok = false := hpre c.retries (by omega) (by omega)
      simp only [download_chunk_go, hf, Bool.false_eq_true, if_false]
      have hok' : (att (({ c with retries := c.retries + 1 } : ChunkInfo).retries + k)).ok
          = true := by
        show (att (c.retries + 1 + k)).ok = true
        have he : c.retries + 1 + k = c.retries + (k + 1) := by omega
        rw [he]
        exact hok
      have hrec := ih k { c with retries := c.retries + 1 } (by omega)
        (fun i h1 h2 => hpre i (by simp at h1; omega) (by simp at h2; omega)) hok'
      simp only [ChunkRun.result, ChunkRun.attempts, ChunkRun.bytes,
        ChunkRun.completedInc] at hrec ⊢
      refine ⟨?_, by omega, ?_, hrec.2.2.2⟩
      · rw [hrec.1]
        show Except.ok _ = Except.ok _
        have he : c.retries + 1 + k = c.retries + (k + 1) := by omega
        simp [he]
      · rw [hrec.2.2.1, List.range'_succ c.retries (k + 1) 1, List.map_cons, List.sum_cons]
        have he : c.retries + 1 = c.retries + 1 := rfl
        omega

/-- C5: `download_chunk` makes at most `config.retries` GET attempts; if
every attempt fails it returns the error naming the chunk's byte range
and increments nothing; a success on attempt `k` (after `k` failures)
marks the chunk completed, increments `chunks_completed` once, and
returns `Ok`. -/
theorem download_chunk_retry_spec (cfg : Nat) (att : Nat → AttemptResult) (c : ChunkInfo)
    (h0 : c.retries = 0) :
    ((download_chunk cfg att c).attempts ≤ cfg) ∧
    ((∀ i, i < cfg → (att i).ok = false) →
      (download_chunk cfg att c).result = .error (chunkFailMsg c.start c.stop cfg) ∧
      (download_chunk cfg att c).attempts = cfg ∧
      (download_chunk cfg att c).completedInc = 0) ∧
    (∀ k, k < cfg → (∀ i, i < k → (att i).ok = false) → (att k).ok = true →
      (download_chunk cfg att c).result = .ok { c with completed := true, retries := k } ∧
      (download_chunk cfg att c).attempts = k + 1 ∧
      (download_chunk cfg att c).completedInc = 1) := by
  unfold download_chunk
  rw [h0, Nat.sub_zero]
  refine ⟨dcgo_attempts_le cfg att cfg c, ?_, ?_⟩
  · intro h
    exact dcgo_all_fail cfg att cfg c (fun i hi => h i (by omega))
  · intro k hk hpre hok
    have hres := dcgo_success cfg att cfg k c hk
      (fun i h1 h2 => hpre i (by omega)) (by rw [h0, Nat.zero_add]; exact hok)
    rw [h0, Nat.zero_add] at hres
    exact ⟨hres.1, hres.2.1, hres.2.2.2⟩

theorem download_chunk_retry_spec_witness :
    (download_chunk 3 (fun _ => ⟨7, false⟩) ⟨5, 9, 5, false, 0⟩).result
        = .error (chunkFailMsg 5 9 3) ∧
    (download_chunk 3 (fun i => ⟨7, i == 2⟩) ⟨0, 9, 10, false, 0⟩).result
        = .ok ⟨0, 9, 10, true, 2⟩ ∧
    (download_chunk 3 (fun i => ⟨7, i == 2⟩) ⟨0, 9, 10, false, 0⟩).completedInc = 1 :=
  ⟨((download_chunk_retry_spec 3 (fun _ => ⟨7, false⟩) ⟨5, 9, 5, false, 0⟩ rfl).2.1
      (fun i _ => rfl)).1,
   ((download_chunk_retry_spec 3 (fun i => ⟨7, i == 2⟩) ⟨0, 9, 10, false, 0⟩ rfl).2.2
      2 (by decide) (fun i hi => by interval_cases i <;> rfl) rfl).1,
   ((download_chunk_retry_spec 3 (fun i => ⟨7, i == 2⟩) ⟨0, 9, 10, false, 0⟩ rfl).2.2
      2 (by decide) (fun i hi => by interval_cases i <;> rfl) rfl).2.2⟩

theorem download_multithread_clean (conn m cfg : Nat) (atts : Nat → Nat → AttemptResult)
    (fs : Nat) (hfs : 1 ≤ fs) (hconn : 1 ≤ conn) (hm : 1 ≤ m) (hcfg : 1 ≤ cfg)
    (hcs : m * 1024 * 1024 < u64Mod) (hov : fs + m * 1024 * 1024 ≤ u64Mod)
    (hatt : ∀ i, i < ((create_chunks conn m fs true).getD []).length →
      (atts i 0).ok = true ∧
      (atts i 0).bytes
        = (((create_chunks conn m fs true).getD []).getD i ⟨0, 0, 0, false, 0⟩).size) :
    download_multithread conn m cfg atts fs true = some (true, fs) := by
  have heq := create_chunks_ranged_eq conn m fs hfs hconn hm hcs hov
  have hnum : 1 ≤ rangedNum conn m fs := rangedNum_pos conn m fs hfs hconn hm
  have hnumfs : rangedNum conn m fs ≤ fs := rangedNum_le_fs conn m fs hfs hm
  have hbase : 1 ≤ fs / rangedNum conn m fs := (Nat.one_le_div_iff (by omega)).mpr hnumfs
  have hsum : rangedNum conn m fs * (fs / rangedNum conn m fs) + fs % rangedNum conn m fs = fs :=
    Nat.div_add_mod fs (rangedNum conn m fs)
  rw [heq, Option.getD_some] at hatt
  have hlen : ((List.range (rangedNum conn m fs)).map
      (planChunk (rangedNum conn m fs) (fs / rangedNum conn m fs)
        (fs % rangedNum conn m fs))).length = rangedNum conn m fs := by
    rw [List.length_map, List.length_range]
  have hget : ∀ i, i < rangedNum conn m fs →
      ((List.range (rangedNum conn m fs)).map
        (planChunk (rangedNum conn m fs) (fs / rangedNum conn m fs)
          (fs % rangedNum conn m fs))).getD i ⟨0, 0, 0, false, 0⟩
      = planChunk (rangedNum conn m fs) (fs / rangedNum conn m fs)
          (fs % rangedNum conn m fs) i := by
    intro i hi
    rw [List.getD_eq_getElem _ _ (by rw [hlen]; exact hi), List.getElem_map,
      List.getElem_range]
  have hrun : ∀ i, i < rangedNum conn m fs →
      download_chunk cfg (atts i)
        (planChunk (rangedNum conn m fs) (fs / rangedNum conn m fs)
          (fs % rangedNum conn m fs) i)
      = ⟨.ok { planChunk (rangedNum conn m fs) (fs / rangedNum conn m fs)
                 (fs % rangedNum conn m fs) i with completed := true, retries := 0 },
         1, (atts i 0).bytes, 1⟩ := by
    intro i hi
    have hai := hatt i (by rw [hlen]; exact hi)
    unfold download_chunk
    rw [planChunk_retries, Nat.sub_zero]
    have hres := dcgo_success cfg (atts i) cfg 0
      (planChunk (rangedNum conn m fs) (fs / rangedNum conn m fs)
        (fs % rangedNum conn m fs) i)
      (by omega) (fun j h1 h2 => by rw [planChunk_retries] at h1 h2; omega)
      (by rw [planChunk_retries, Nat.add_zero]; exact hai.1)
    rw [planChunk_retries, Nat.zero_add] at hres
    obtain ⟨h1, h2, h3, h4⟩ := hres
    have hb : ((List.range' 0 1).map (fun j => (atts i j).bytes)).sum = (atts i 0).bytes := by
      simp
    rw [hb] at h3
    cases hgo : download_chunk_go cfg (atts i) cfg
      (planChunk (rangedNum conn m fs) (fs / rangedNum conn m fs)
        (fs % rangedNum conn m fs) i) with
    | mk r a b ci =>
      rw [hgo] at h1 h2 h3 h4
      simp only [ChunkRun.result, ChunkRun.attempts, ChunkRun.bytes,
        ChunkRun.completedInc] at h1 h2 h3 h4
      rw [h1, h2, h3, h4]
  simp only [download_multithread, heq]
  have hall : ((List.range (((List.range (rangedNum conn m fs)).map
      (planChunk (rangedNum conn m fs) (fs / rangedNum conn m fs)
        (fs % rangedNum conn m fs))).length)).map
      (fun i => download_chunk cfg (atts i)
        (((List.range (rangedNum conn m fs)).map
          (planChunk (rangedNum conn m fs) (fs / rangedNum conn m fs)
            (fs % rangedNum conn m fs))).getD i ⟨0, 0, 0, false, 0⟩))).all
      (fun r => resultOk r.result) = true := by
    rw [List.all_eq_true]
    intro x hx
    obtain ⟨i, hi, rfl⟩ := List.mem_map.mp hx
    rw [hlen] at hi
    have hi' : i < rangedNum conn m fs := List.mem_range.mp hi
    rw [hget i hi', hrun i hi']
    rfl
  have hbytes : (((List.range (((List.range (rangedNum conn m fs)).map
      (planChunk (rangedNum conn m fs) (fs / rangedNum conn m fs)
        (fs % rangedNum conn m fs))).length)).map
      (fun i => download_chunk cfg (atts i)
        (((List.range (rangedNum conn m fs)).map
          (planChunk (rangedNum conn m fs) (fs / rangedNum conn m fs)
            (fs % rangedNum conn m fs))).getD i ⟨0, 0, 0, false, 0⟩))).map
      (fun r => r.bytes)).sum = fs := by
    rw [hlen, List.map_map]
    have hpt : ∀ i ∈ List.range (rangedNum conn m fs),
        ((fun r => ChunkRun.bytes r) ∘ (fun i => download_chunk cfg (atts i)
          (((List.range (rangedNum conn m fs)).map
            (planChunk (rangedNum conn m fs) (fs / rangedNum conn m fs)
              (fs % rangedNum conn m fs))).getD i ⟨0, 0, 0, false, 0⟩))) i
        = (ChunkInfo.size ∘ planChunk (rangedNum conn m fs) (fs / rangedNum conn m fs)
            (fs % rangedNum conn m fs)) i := by
      intro i hi
      have hi' : i < rangedNum conn m fs := List.mem_range.mp hi
      have hai := hatt i (by rw [hlen]; exact hi')
      simp only [Function.comp_apply]
      rw [hget i hi', hrun i hi']
      exact hai.2.trans (by rw [hget i hi'])
    rw [List.map_congr_left hpt]
    have hs := sizesSum_planChunk (rangedNum conn m fs) (fs / rangedNum conn m fs)
      (fs % rangedNum conn m fs) fs hnum hbase hsum
    unfold sizesSum at hs
    rw [List.map_map] at hs
    exact hs
  rw [hall, hbytes]

/-- C2 cx: a ranged download in which one chunk streams 1 byte on a
failing attempt and then succeeds on retry ends with `success = true`
and `stats.downloaded = 2097153`, one byte more than the 2-MiB file
size — the counter is never reduced when an attempt fails. -/
theorem downloaded_exceeds_total_cx :
    download_multithread 2 1 2 retriedAtts 2097152 true = some (true, 2097153) := by rfl

/-- C2 (amended): `stats.downloaded` counts every streamed byte, so a
successful download totals `file_size` plus the bytes streamed by
failed attempts; it equals `file_size` exactly on clean runs, and
equals the response byte count for single-stream. -/
theorem downloaded_accounting :
    (∀ (cfg : Nat) (att : Nat → AttemptResult) (c : ChunkInfo) (k : Nat),
      c.retries = 0 → k < cfg → (∀ i, i < k → (att i).ok = false) → (att k).ok = true →
      resultOk (download_chunk cfg att c).result = true ∧
      (download_chunk cfg att c).bytes
        = ((List.range k).map (fun i => (att i).bytes)).sum + (att k).bytes) ∧
    (∀ (conn m cfg : Nat) (atts : Nat → Nat → AttemptResult) (fs : Nat),
      1 ≤ fs → 1 ≤ conn → 1 ≤ m → 1 ≤ cfg →
      m * 1024 * 1024 < u64Mod → fs + m * 1024 * 1024 ≤ u64Mod →
      (∀ i, i < ((create_chunks conn m fs true).getD []).length →
        (atts i 0).ok = true ∧
        (atts i 0).bytes
          = (((create_chunks conn m fs true).getD []).getD i ⟨0, 0, 0, false, 0⟩).size) →
      download_multithread conn m cfg atts fs true = some (true, fs)) ∧
    (∀ (status : Nat) (frames : List Nat), statusSuccess status = true →
      download_single_stream status frames false = (.ok (), frames.sum)) := by
  refine ⟨?_, ?_, ?_⟩
  · intro cfg att c k h0 hk hpre hok
    unfold download_chunk
    rw [h0, Nat.sub_zero]
    have hres := dcgo_success cfg att cfg k c hk
      (fun i h1 h2 => hpre i (by omega)) (by rw [h0, Nat.zero_add]; exact hok)
    rw [h0] at hres
    refine ⟨by rw [hres.1]; rfl, ?_⟩
    rw [hres.2.2.1, ← List.range_eq_range', List.range_succ, List.map_append,
      List.sum_append]
    simp
  · intro conn m cfg atts fs hfs hconn hm hcfg hcs hov hatt
    exact download_multithread_clean conn m cfg atts fs hfs hconn hm hcfg hcs hov hatt
  · intro status frames h
    unfold download_single_stream
    rw [if_neg (by rw [h]; simp), if_neg (by simp)]

theorem downloaded_accounting_witness :
    (resultOk (download_chunk 2 (retriedAtts 0) ⟨0, 1048575, 1048576, false, 0⟩).result = true ∧
      (download_chunk 2 (retriedAtts 0) ⟨0, 1048575, 1048576, false, 0⟩).bytes = 1048577) ∧
    download_multithread 2 1 1 cleanAtts 2097152 true = some (true, 2097152) ∧
    download_single_stream 200 [512, 512] false = (.ok (), 1024) :=
  ⟨downloaded_accounting.1 2 (retriedAtts 0) ⟨0, 1048575, 1048576, false, 0⟩ 1 rfl
      (by decide) (fun i hi => by interval_cases i; rfl) rfl,
   downloaded_accounting.2.1 2 1 1 cleanAtts 2097152 (by decide) (by decide) (by decide)
      (by decide) (by decide) (by decide) (by decide),
   downloaded_accounting.2.2 200 [512, 512] rfl⟩

/-- C8: a URL whose last path segment is non-empty and percent-decodes,
after discarding any `?`-suffix, to a non-empty name is mapped to that
name; every URL without such a usable segment is mapped to the
synthesized `download_<hash>_<time>` name whose first digit group is
the 32-bit folding sum of the URL's code points.  The decoder sanity
fact `decode "" = some ""` of `urlencoding` stands in for the real
percent-decoder on the empty segment. -/
theorem extract_filename_spec (lib : UrlLib) (now : Nat) (url : String) :
    (∀ segs lastSeg n, lib.segments url = some segs → segs.getLast? = some lastSeg →
      lib.decode "" = some "" → dropQuery ((lib.decode lastSeg).getD "") = n → n ≠ "" →
      extract_filename lib now url = n) ∧
    (lib.segments url = none →
      extract_filename lib now url
        = "download_" ++ toString (url_hash url) ++ "_" ++ toString now) ∧
    (∀ segs, lib.segments url = some segs → segs.getLast? = none →
      extract_filename lib now url
        = "download_" ++ toString (url_hash url) ++ "_" ++ toString now) ∧
    (∀ segs, lib.segments url = some segs → segs.getLast? = some "" →
      extract_filename lib now url
        = "download_" ++ toString (url_hash url) ++ "_" ++ toString now) ∧
    (∀ segs lastSeg, lib.segments url = some segs → segs.getLast? = some lastSeg →
      dropQuery ((lib.decode lastSeg).getD "") = "" →
      extract_filename lib now url
        = "download_" ++ toString (url_hash url) ++ "_" ++ toString now) ∧
    url_hash url = url.data.foldl (fun acc c => (acc + c.toNat) % 2 ^ 32) 0 := by
  refine ⟨?_, ?_, ?_, ?_, ?_, rfl⟩
  · intro segs lastSeg n hseg hlast hdec hclean hne
    have hlastne : lastSeg ≠ "" := by
      intro h
      rw [h, hdec] at hclean
      exact hne (hclean.symm.trans rfl)
    unfold extract_filename
    simp only [hseg, hlast]
    rw [if_pos hlastne, hclean, if_pos hne]
  · intro hseg
    unfold extract_filename
    simp only [hseg]
  · intro segs hseg hlast
    unfold extract_filename
    simp only [hseg, hlast]
  · intro segs hseg hlast
    unfold extract_filename
    simp only [hseg, hlast]
    rw [if_neg (by simp)]
  · intro segs lastSeg hseg hlast hclean
    unfold extract_filename
    simp only [hseg, hlast]
    by_cases hlastne : lastSeg ≠ ""
    · rw [if_pos hlastne, hclean, if_neg (by simp)]
    · rw [if_neg hlastne]

theorem extract_filename_spec_witness :
    extract_filename pathLib 0 "http://h/a/b/c.txt" = "c.txt" ∧
    extract_filename noParseLib 7 "x" = "download_120_7" :=
  ⟨(extract_filename_spec pathLib 0 "http://h/a/b/c.txt").1 ["a", "b", "c.txt"] "c.txt"
      "c.txt" rfl rfl rfl (by decide) (by decide),
   (extract_filename_spec noParseLib 7 "x").2.1 rfl⟩
